import Mathlib

/-!
Shallow embedding of the binary protocol codec of `src/engine/networking/buffer.py`
(class `Buffer`), together with proofs of the specified properties.

Bytes are modelled as `Nat` values (Python guarantees `0..255` for every byte read
from a `bytes` object; values produced by the packers are proved/evidently in range).
The read cursor `pos` is an `Int`, because Python's `read` accepts any integer
length and `self.pos += length` can move the cursor backwards for negative lengths.
Python slices `buff[a:b]` (with Python's negative-index normalisation and clamping)
are modelled by `pySlice`.

Mutating methods of the Python class become functions `Buffer → result × Buffer`;
a raised exception is an `Except.error` paired with the buffer state at the moment
of the raise (mutations performed before the raise are kept, as in Python).
-/

deriving instance DecidableEq for Except

namespace MegaCities

/-- The exception kinds raised by the code under `src/engine/networking/buffer.py`:
`BufferUnderrun`, `ValueError` (varint range), `struct.error`, `IndexError`
(tuple index out of range) and `UnicodeDecodeError`. -/
inductive Err where
  | underrun
  | valueError
  | structError
  | indexError
  | unicodeDecodeError
deriving DecidableEq, Repr

/-- Python's normalisation of one slice endpoint `i` for a sequence of length `n`:
negative indices count from the end, and the result is clamped to `[0, n]`. -/
def pyClamp (n : Nat) (i : Int) : Nat :=
  if i < 0 then ((n : Int) + i).toNat else min i.toNat n

/-- Python slice `l[a:b]` for integer endpoints. -/
def pySlice (l : List Nat) (a b : Int) : List Nat :=
  (l.take (pyClamp l.length b)).drop (pyClamp l.length a)

/-- The state of `Buffer`: the byte string `self.buff` and the cursor `self.pos`. -/
structure Buffer where
  buff : List Nat
  pos : Int
deriving DecidableEq, Repr

/-- `self.buff[self.pos:]`, the bytes not yet consumed (used by `__len__`,
`read()` with no argument, and `save`). -/
def Buffer.remaining (b : Buffer) : List Nat :=
  pySlice b.buff b.pos (b.buff.length : Int)

/-- `Buffer.add`: append bytes to the end of the buffer. -/
def Buffer.add (b : Buffer) (data : List Nat) : Buffer :=
  { b with buff := b.buff ++ data }

/-- `Buffer.save`: `self.buff = self.buff[self.pos:]; self.pos = 0`. -/
def Buffer.save (b : Buffer) : Buffer :=
  { buff := pySlice b.buff b.pos (b.buff.length : Int), pos := 0 }

/-- `Buffer.restore`: `self.pos = 0`. -/
def Buffer.restore (b : Buffer) : Buffer :=
  { b with pos := 0 }

/-- `Buffer.discard`: `self.pos = len(self.buff)`. -/
def Buffer.discard (b : Buffer) : Buffer :=
  { b with pos := (b.buff.length : Int) }

/-- `Buffer.read`: with no argument, return `self.buff[self.pos:]` and move the
cursor to the end; with argument `length`, raise `BufferUnderrun` when
`self.pos + length > len(self.buff)`, otherwise return
`self.buff[self.pos:self.pos+length]` and advance the cursor by `length`. -/
def Buffer.read (b : Buffer) (length : Option Int) : Except Err (List Nat) × Buffer :=
  match length with
  | none =>
      (.ok (pySlice b.buff b.pos (b.buff.length : Int)), { b with pos := (b.buff.length : Int) })
  | some l =>
      if b.pos + l > (b.buff.length : Int) then (.error .underrun, b)
      else (.ok (pySlice b.buff b.pos (b.pos + l)), { b with pos := b.pos + l })

/-- `Buffer.unpack` for a format of `k` fixed bytes: `self.read(struct.calcsize(fmt))`
followed by `struct.unpack`, which raises `struct.error` unless the data has
exactly `k` bytes (this matters when `pos` is negative, where the Python slice
returned by `read` can be shorter than requested). -/
def Buffer.unpackBytes (b : Buffer) (k : Nat) : Except Err (List Nat) × Buffer :=
  match b.read (some (k : Int)) with
  | (.error e, b') => (.error e, b')
  | (.ok data, b') =>
      if data.length = k then (.ok data, b') else (.error .structError, b')

/-- Big-endian interpretation of a byte string, as done by `struct.unpack` for
the unsigned formats `B`/`H`/`Q` (and the basis of the signed ones). -/
def beNat (l : List Nat) : Nat :=
  l.foldl (fun a x => a * 256 + x) 0

/-- `self.unpack('B')`: one unsigned byte. -/
def Buffer.unpackU8 (b : Buffer) : Except Err Nat × Buffer :=
  match b.unpackBytes 1 with
  | (.error e, b') => (.error e, b')
  | (.ok data, b') => (.ok (beNat data), b')

/-- `self.unpack('h')`: big-endian signed 16-bit integer. -/
def Buffer.unpackH (b : Buffer) : Except Err Int × Buffer :=
  match b.unpackBytes 2 with
  | (.error e, b') => (.error e, b')
  | (.ok data, b') =>
      let v := beNat data
      (.ok (if 2 ^ 15 ≤ v then (v : Int) - 2 ^ 16 else (v : Int)), b')

/-- `self.unpack('b')`: signed 8-bit integer. -/
def Buffer.unpackB8 (b : Buffer) : Except Err Int × Buffer :=
  match b.unpackBytes 1 with
  | (.error e, b') => (.error e, b')
  | (.ok data, b') =>
      let v := beNat data
      (.ok (if 2 ^ 7 ≤ v then (v : Int) - 2 ^ 8 else (v : Int)), b')

/-- `self.unpack('Q')`: big-endian unsigned 64-bit integer. -/
def Buffer.unpackQ (b : Buffer) : Except Err Nat × Buffer :=
  match b.unpackBytes 8 with
  | (.error e, b') => (.error e, b')
  | (.ok data, b') => (.ok (beNat data), b')

/-- `Buffer.pack('h', v)`: `struct.pack` raises `struct.error` for a value outside
the signed 16-bit range, otherwise emits the two's-complement big-endian bytes. -/
def packH (v : Int) : Except Err (List Nat) :=
  if -(2 ^ 15) ≤ v ∧ v < 2 ^ 15 then
    let u := (if v < 0 then v + 2 ^ 16 else v).toNat
    .ok [u / 256, u % 256]
  else .error .structError

/-- `Buffer.pack('b', v)`: signed 8-bit. -/
def packB8 (v : Int) : Except Err (List Nat) :=
  if -(2 ^ 7) ≤ v ∧ v < 2 ^ 7 then
    .ok [(if v < 0 then v + 2 ^ 8 else v).toNat]
  else .error .structError

/-- `Buffer.pack('Q', v)`: `struct.pack` raises `struct.error` outside `[0, 2^64)`,
otherwise emits eight big-endian bytes. -/
def packQ (v : Int) : Except Err (List Nat) :=
  if 0 ≤ v ∧ v < 2 ^ 64 then
    let u := v.toNat
    .ok [(u >>> 56) &&& 255, (u >>> 48) &&& 255, (u >>> 40) &&& 255, (u >>> 32) &&& 255,
         (u >>> 24) &&& 255, (u >>> 16) &&& 255, (u >>> 8) &&& 255, u &&& 255]
  else .error .structError

/-- The encoding loop of `Buffer.pack_varint`:
`for i in range(10): b = number & 0x7F; number >>= 7;
 out += pack("B", b | (0x80 if number > 0 else 0)); if number == 0: break`.
Python's `&`, `>>` on arbitrary ints are `Int.emod`/`Int.fdiv` by the power of two. -/
def varintLoop : Int → Nat → List Nat
  | _, 0 => []
  | n, fuel + 1 =>
      let b := (n % 128).toNat
      let n' := n.fdiv 128
      let byte := b ||| (if 0 < n' then 128 else 0)
      if n' = 0 then [byte] else byte :: varintLoop n' fuel

/-- `Buffer.pack_varint(number, max_bits)`: range-check against the declared
bit-width (raising `ValueError` outside it), add `2^32` to negative values, then
run the 7-bit group loop (at most 10 iterations). -/
def pack_varint (number : Int) (max_bits : Nat) : Except Err (List Nat) :=
  let number_min : Int := -(2 ^ (max_bits - 1))
  let number_max : Int := 2 ^ (max_bits - 1)
  if number_min ≤ number ∧ number < number_max then
    .ok (varintLoop (if number < 0 then number + 2 ^ 32 else number) 10)
  else .error .valueError

/-- The decoding loop of `Buffer.unpack_varint`:
`for i in range(10): b = self.unpack("B"); number |= (b & 0x7F) << 7*i;
 if not b & 0x80: break`. `fuel` is the number of loop iterations left. -/
def Buffer.uvLoop (b : Buffer) (acc i fuel : Nat) : Except Err Nat × Buffer :=
  match fuel with
  | 0 => (.ok acc, b)
  | fuel + 1 =>
      match b.unpackU8 with
      | (.error e, b') => (.error e, b')
      | (.ok byte, b') =>
          let acc' := acc ||| ((byte &&& 0x7F) <<< (7 * i))
          if byte &&& 0x80 = 0 then (.ok acc', b') else b'.uvLoop acc' (i + 1) fuel

/-- `Buffer.unpack_varint(max_bits)`: run the byte loop, interpret the result as a
32-bit two's-complement value (`number -= 1 << 32` when bit 31 is set), then
range-check against the declared bit-width, raising `ValueError` outside it. -/
def Buffer.unpack_varint (b : Buffer) (max_bits : Nat) : Except Err Int × Buffer :=
  match b.uvLoop 0 0 10 with
  | (.error e, b') => (.error e, b')
  | (.ok number, b') =>
      let signed : Int := if number &&& (1 <<< 31) ≠ 0 then (number : Int) - 2 ^ 32 else (number : Int)
      let number_min : Int := -(2 ^ (max_bits - 1))
      let number_max : Int := 2 ^ (max_bits - 1)
      if number_min ≤ signed ∧ signed < number_max then (.ok signed, b')
      else (.error .valueError, b')

/-- The compression phase of `Buffer.pack_packet(data, compression_threshold)`
(the body of the `if compression_threshold >= 0:` statement, which rebinds
`data`): when compression is negotiated, either prepend `pack_varint(len(data))`
to the compressed body (when `len(data) >= compression_threshold`) or a zero
marker varint to the raw body. The zlib compressor is an external collaborator
and is passed in as `compress` (modelled from the spec: `compress(body)` are
the compressed bytes). -/
def packetFrame (compress : List Nat → List Nat) (data : List Nat)
    (compression_threshold : Int) : Except Err (List Nat) :=
  if 0 ≤ compression_threshold then
    if compression_threshold ≤ (data.length : Int) then
      Except.map (fun p => p ++ compress data) (pack_varint (data.length : Int) 32)
    else
      Except.map (fun p => p ++ data) (pack_varint 0 32)
  else .ok data

/-- `Buffer.pack_packet(data, compression_threshold)`: run the compression
phase (`packetFrame`), then prepend `pack_varint(len(data), max_bits=32)` to
the resulting frame data. -/
def pack_packet (compress : List Nat → List Nat) (data : List Nat)
    (compression_threshold : Int) : Except Err (List Nat) :=
  Except.bind (packetFrame compress data compression_threshold)
    (fun data' => Except.map (fun p => p ++ data') (pack_varint (data'.length : Int) 32))

/-- `Buffer.unpack_packet(cls, compression_threshold)`:
`body = self.read(self.unpack_varint(max_bits=32)); buff = cls(body)`, then when
compression is negotiated read the inner varint; a positive value means the rest
of the frame is decompressed into a fresh cursor, zero means `buff` is returned
as is. The zlib decompressor is the external collaborator `decompress`
(modelled from the spec: inverse of `compress`). The second component is the
source cursor's state after the call. -/
def Buffer.unpack_packet (b : Buffer) (decompress : List Nat → List Nat)
    (compression_threshold : Int) : Except Err Buffer × Buffer :=
  match b.unpack_varint 32 with
  | (.error e, b1) => (.error e, b1)
  | (.ok n, b1) =>
      match b1.read (some n) with
      | (.error e, b2) => (.error e, b2)
      | (.ok body, b2) =>
          let buff : Buffer := ⟨body, 0⟩
          if 0 ≤ compression_threshold then
            match buff.unpack_varint 32 with
            | (.error e, _) => (.error e, b2)
            | (.ok uncompressed_length, buff1) =>
                if 0 < uncompressed_length then
                  match buff1.read none with
                  | (.error e, _) => (.error e, b2)
                  | (.ok comp, _) => (.ok ⟨decompress comp, 0⟩, b2)
                else (.ok buff1, b2)
          else (.ok buff, b2)

/-- Modelled from the spec: Python's `bytes.decode("utf-8")` for one code point —
returns the decoded `Char` and the remaining bytes, or `none` for invalid UTF-8
(invalid leading/continuation bytes, overlong forms, surrogates, out-of-range). -/
def utf8DecodeChar : List Nat → Option (Char × List Nat)
  | [] => none
  | b0 :: rest =>
      if b0 < 0x80 then some (Char.ofNat b0, rest)
      else if b0 < 0xC0 then none
      else if b0 < 0xE0 then
        match rest with
        | b1 :: r =>
            if 0x80 ≤ b1 ∧ b1 < 0xC0 then
              let cp := (b0 - 0xC0) * 64 + (b1 - 0x80)
              if 0x80 ≤ cp then some (Char.ofNat cp, r) else none
            else none
        | _ => none
      else if b0 < 0xF0 then
        match rest with
        | b1 :: b2 :: r =>
            if (0x80 ≤ b1 ∧ b1 < 0xC0) ∧ (0x80 ≤ b2 ∧ b2 < 0xC0) then
              let cp := (b0 - 0xE0) * 4096 + (b1 - 0x80) * 64 + (b2 - 0x80)
              if 0x800 ≤ cp ∧ ¬ (0xD800 ≤ cp ∧ cp < 0xE000) then some (Char.ofNat cp, r)
              else none
            else none
        | _ => none
      else if b0 < 0xF8 then
        match rest with
        | b1 :: b2 :: b3 :: r =>
            if (0x80 ≤ b1 ∧ b1 < 0xC0) ∧ (0x80 ≤ b2 ∧ b2 < 0xC0) ∧ (0x80 ≤ b3 ∧ b3 < 0xC0) then
              let cp := (b0 - 0xF0) * 262144 + (b1 - 0x80) * 4096 + (b2 - 0x80) * 64 + (b3 - 0x80)
              if 0x10000 ≤ cp ∧ cp < 0x110000 then some (Char.ofNat cp, r) else none
            else none
        | _ => none
      else none

/-- Modelled from the spec: Python's `bytes.decode("utf-8")`, driven by a fuel
argument bounding the number of decoded code points (a code point consumes at
least one byte, so fuel `l.length` suffices). -/
def utf8DecodeGo : Nat → List Nat → Option (List Char)
  | _, [] => some []
  | 0, _ :: _ => none
  | fuel + 1, l =>
      match utf8DecodeChar l with
      | none => none
      | some (c, r) => (utf8DecodeGo fuel r).map (c :: ·)

/-- Modelled from the spec: Python's `bytes.decode("utf-8")`. -/
def decodeUtf8 (l : List Nat) : Option String :=
  (utf8DecodeGo l.length l).map List.asString

/-- `Buffer.unpack_string`: `length = self.unpack_varint(max_bits=16)`, then
`self.read(length).decode("utf-8")` (a decode failure raises
`UnicodeDecodeError`). -/
def Buffer.unpack_string (b : Buffer) : Except Err String × Buffer :=
  match b.unpack_varint 16 with
  | (.error e, b1) => (.error e, b1)
  | (.ok length, b1) =>
      match b1.read (some length) with
      | (.error e, b2) => (.error e, b2)
      | (.ok data, b2) =>
          match decodeUtf8 data with
          | some s => (.ok s, b2)
          | none => (.error .unicodeDecodeError, b2)

/-- Helper of `Buffer.pack_position`: `if number < 0: number = number + (1 << bits)`.
Python `<<` on ints is exact multiplication by the power of two. -/
def pack_twos_comp (bits : Nat) (number : Int) : Int :=
  if number < 0 then number + 2 ^ bits else number

/-- `Buffer.pack_position(x, y, z)`:
`pack('Q', pack_twos_comp(26, x) << 38 + pack_twos_comp(12, y) << 26 + pack_twos_comp(26, z))`. -/
def pack_position (x y z : Int) : Except Err (List Nat) :=
  packQ (pack_twos_comp 26 x * 2 ^ 38 + pack_twos_comp 12 y * 2 ^ 26 + pack_twos_comp 26 z)

/-- Helper of `Buffer.unpack_position`:
`if (tc_number & (1 << (bits - 1))) != 0: tc_number = tc_number - (1 << bits)`. -/
def unpack_twos_comp (bits : Nat) (tc_number : Nat) : Int :=
  if tc_number &&& (1 <<< (bits - 1)) ≠ 0 then (tc_number : Int) - 2 ^ bits
  else (tc_number : Int)

/-- `Buffer.unpack_position`: read one unsigned 64-bit word, then sign-extend the
three two's-complement sub-fields `x = number >> 38`, `y = number >> 26 & 0xFFF`,
`z = number & 0x3FFFFFF`. -/
def Buffer.unpack_position (b : Buffer) : Except Err (Int × Int × Int) × Buffer :=
  match b.unpackQ with
  | (.error e, b') => (.error e, b')
  | (.ok number, b') =>
      (.ok (unpack_twos_comp 26 (number >>> 38),
            unpack_twos_comp 12 ((number >>> 26) &&& 0xFFF),
            unpack_twos_comp 26 (number &&& 0x3FFFFFF)), b')

/-- The result of `Buffer.unpack_slot`, a Python dict: the `item` key is always
present (`none` models Python `None`), while `count`, `damage` and `tag` are
only inserted for a non-empty slot (`Option.none` models an absent key). -/
structure Slot (Item Tag : Type) where
  item : Option Item
  count : Option Int
  damage : Option Int
  tag : Option Tag
deriving DecidableEq, Repr

/-- `Buffer.pack_nbt(tag)`: `None` encodes as the single byte `0x00`, otherwise
`tag.to_bytes()` — the tag codec is the external collaborator `tagToBytes`. -/
def pack_nbt (tagToBytes : Tag → List Nat) (tag : Option Tag) : List Nat :=
  match tag with
  | none => [0]
  | some t => tagToBytes t

/-- `Buffer.pack_slot(item, count, damage, tag)`: an absent item packs as the
signed-16 sentinel `-1` and nothing else; otherwise
`pack('hbh', item_id, count, damage) + pack_nbt(tag)` with the item id obtained
from the external registry (`encodeItem`, modelled from the spec:
`registry.encode('mega_cities:item', item)`, failing on unknown symbols). -/
def pack_slot (encodeItem : Item → Except Err Int) (tagToBytes : Tag → List Nat)
    (item : Option Item) (count damage : Int) (tag : Option Tag) : Except Err (List Nat) :=
  match item with
  | none => packH (-1)
  | some it =>
      match encodeItem it with
      | .error e => .error e
      | .ok item_id =>
          match packH item_id, packB8 count, packH damage with
          | .ok h1, .ok h2, .ok h3 => .ok (h1 ++ h2 ++ h3 ++ pack_nbt tagToBytes tag)
          | .error e, _, _ => .error e
          | _, .error e, _ => .error e
          | _, _, .error e => .error e

/-- `Buffer.unpack_slot`: read a signed-16 item id; `-1` yields the empty slot
`{'item': None}` with nothing further consumed, otherwise resolve the item
through the external registry (`decodeItem`, modelled from the spec:
`registry.decode('mega_cities:item', item_id)`) and read count, damage and the
tag tree (`unpackNbt`, the external tag codec's from-cursor contract). -/
def Buffer.unpack_slot (b : Buffer) (decodeItem : Int → Except Err Item)
    (unpackNbt : Buffer → Except Err Tag × Buffer) : Except Err (Slot Item Tag) × Buffer :=
  match b.unpackH with
  | (.error e, b1) => (.error e, b1)
  | (.ok item_id, b1) =>
      if item_id = -1 then (.ok ⟨none, none, none, none⟩, b1)
      else
        match decodeItem item_id with
        | .error e => (.error e, b1)
        | .ok it =>
            match b1.unpackB8 with
            | (.error e, b2) => (.error e, b2)
            | (.ok count, b2) =>
                match b2.unpackH with
                | (.error e, b3) => (.error e, b3)
                | (.ok damage, b3) =>
                    match unpackNbt b3 with
                    | (.error e, b4) => (.error e, b4)
                    | (.ok tag, b4) => (.ok ⟨some it, some count, some damage, some tag⟩, b4)

/-- The module-level tuple `directions = ("down", "up", "north", "south", "west", "east")`. -/
def directions : List String := ["down", "up", "north", "south", "west", "east"]

/-- Python indexing `t[i]` on a tuple/list: negative indices count from the end,
and an index out of `[-len, len)` raises `IndexError`. -/
def pyGet (l : List α) (i : Int) : Except Err α :=
  let j : Int := if i < 0 then i + (l.length : Int) else i
  if h : 0 ≤ j ∧ j < (l.length : Int) then
    .ok (l.get ⟨j.toNat, by omega⟩)
  else .error .indexError

/-- `Buffer.unpack_direction`: `directions[self.unpack_varint()]`. -/
def Buffer.unpack_direction (b : Buffer) : Except Err String × Buffer :=
  match b.unpack_varint 32 with
  | (.error e, b') => (.error e, b')
  | (.ok i, b') =>
      match pyGet directions i with
      | .ok d => (.ok d, b')
      | .error e => (.error e, b')

/-! ### Bitwise helper lemmas -/

theorem byteFacts : ∀ m, m < 128 →
    (m ||| 128) &&& 127 = m ∧ (m ||| 128) &&& 128 = 128 ∧
    m &&& 127 = m ∧ m &&& 128 = 0 := by decide

theorem lor_shiftLeft (a b k : Nat) : (a ||| b) <<< k = (a <<< k) ||| (b <<< k) := by
  apply Nat.eq_of_testBit_eq
  intro j
  simp only [Nat.testBit_lor, Nat.testBit_shiftLeft, Bool.and_or_distrib_left]

theorem shiftLeft_lor_recombine (m k : Nat) :
    ((m % 128) <<< k) ||| ((m / 128) <<< (k + 7)) = m <<< k := by
  apply Nat.eq_of_testBit_eq
  intro j
  have h128 : (128 : Nat) = 2 ^ 7 := rfl
  rw [h128, show m / 2 ^ 7 = m >>> 7 from (Nat.shiftRight_eq_div_pow m 7).symm]
  simp only [Nat.testBit_lor, Nat.testBit_shiftLeft, Nat.testBit_mod_two_pow,
    Nat.testBit_shiftRight]
  by_cases h1 : k ≤ j
  · by_cases h2 : k + 7 ≤ j
    · have h3 : ¬ (j - k < 7) := by omega
      have e : 7 + (j - (k + 7)) = j - k := by omega
      simp [h1, h2, h3, e]
    · have h3 : j - k < 7 := by omega
      simp [h1, h2, h3]
  · have h2 : ¬ (k + 7 ≤ j) := by omega
    simp [h1, h2]

theorem and_pow_ne_iff (k n : Nat) (h : n < 2 ^ (k + 1)) :
    (n &&& (1 <<< k) ≠ 0) ↔ 2 ^ k ≤ n := by
  have h1 : (1 : Nat) <<< k = 2 ^ k := by rw [Nat.shiftLeft_eq, one_mul]
  have hp : 0 < 2 ^ k := Nat.pos_pow_of_pos k (by norm_num)
  have hd : n / 2 ^ k < 2 := by
    rw [Nat.div_lt_iff_lt_mul hp]
    have h2 : 2 ^ k * 2 = 2 ^ (k + 1) := by rw [pow_succ]
    omega
  have hig : 2 ^ k ≤ n ↔ n / 2 ^ k = 1 := by
    have hone := Nat.one_le_div_iff hp (a := n)
    omega
  rw [h1, Nat.and_two_pow, Nat.testBit_to_div_mod]
  by_cases hc : n / 2 ^ k = 1
  · simp [hc, hig]
  · have hc0 : n / 2 ^ k = 0 := by
      cases Nat.eq_or_lt_of_le (Nat.le_of_lt_succ hd) with
      | inl h1 => exact absurd h1 hc
      | inr h2 => exact Nat.lt_one_iff.mp h2
    simp [hc0, hig]

/-! ### Python slice and read helper lemmas -/

theorem pyClamp_coe (n p : Nat) : pyClamp n (p : Int) = min p n := by
  unfold pyClamp
  have : ¬ ((p : Int) < 0) := by omega
  simp [this]

theorem pySlice_mid (pre mid rest : List Nat) :
    pySlice (pre ++ mid ++ rest) (pre.length : Int)
      ((pre.length : Int) + (mid.length : Int)) = mid := by
  unfold pySlice
  have hcast : (pre.length : Int) + (mid.length : Int) = ((pre.length + mid.length : Nat) : Int) := by
    push_cast; ring
  rw [hcast, pyClamp_coe, pyClamp_coe]
  have hlen : (pre ++ mid ++ rest).length = pre.length + mid.length + rest.length := by
    simp only [List.length_append]
  rw [hlen]
  have h1 : min pre.length (pre.length + mid.length + rest.length) = pre.length := by omega
  have h2 : min (pre.length + mid.length) (pre.length + mid.length + rest.length)
      = pre.length + mid.length := by omega
  rw [h1, h2, List.append_assoc, List.take_append, List.take_left, List.drop_left]

theorem pySlice_from (pre tail : List Nat) :
    pySlice (pre ++ tail) (pre.length : Int) (((pre ++ tail).length : Nat) : Int) = tail := by
  unfold pySlice
  rw [pyClamp_coe, pyClamp_coe]
  have hlen : (pre ++ tail).length = pre.length + tail.length := by
    simp only [List.length_append]
  rw [hlen]
  have h1 : min pre.length (pre.length + tail.length) = pre.length := by omega
  have h2 : min (pre.length + tail.length) (pre.length + tail.length)
      = pre.length + tail.length := by omega
  rw [h1, h2, ← hlen, List.take_length, List.drop_left]

theorem remaining_at (pre tail : List Nat) :
    Buffer.remaining ⟨pre ++ tail, (pre.length : Int)⟩ = tail := by
  unfold Buffer.remaining
  exact pySlice_from pre tail

theorem read_exact (pre mid rest : List Nat) :
    Buffer.read ⟨pre ++ mid ++ rest, (pre.length : Int)⟩ (some (mid.length : Int)) =
      (.ok mid, ⟨pre ++ mid ++ rest, (pre.length : Int) + (mid.length : Int)⟩) := by
  unfold Buffer.read
  have hlen : (pre ++ mid ++ rest).length = pre.length + mid.length + rest.length := by
    simp only [List.length_append]
  have hcond : ¬ ((pre.length : Int) + (mid.length : Int) > ((pre ++ mid ++ rest).length : Int)) := by
    rw [hlen]; push_cast; omega
  simp only [hcond, if_false]
  rw [pySlice_mid]

theorem read_all (pre tail : List Nat) :
    Buffer.read ⟨pre ++ tail, (pre.length : Int)⟩ none =
      (.ok tail, ⟨pre ++ tail, ((pre ++ tail).length : Int)⟩) := by
  unfold Buffer.read
  rw [pySlice_from]

theorem unpackBytes_exact (pre mid rest : List Nat) :
    Buffer.unpackBytes ⟨pre ++ mid ++ rest, (pre.length : Int)⟩ mid.length =
      (.ok mid, ⟨pre ++ mid ++ rest, (pre.length : Int) + (mid.length : Int)⟩) := by
  unfold Buffer.unpackBytes
  rw [read_exact]
  simp

theorem unpackU8_at (pre rest : List Nat) (x : Nat) :
    Buffer.unpackU8 ⟨pre ++ x :: rest, (pre.length : Int)⟩ =
      (.ok x, ⟨pre ++ x :: rest, (pre.length : Int) + 1⟩) := by
  unfold Buffer.unpackU8
  have h : pre ++ x :: rest = pre ++ [x] ++ rest := by simp
  rw [h]
  have := unpackBytes_exact pre [x] rest
  simp only [List.length_cons, List.length_nil] at this
  rw [this]
  simp [beNat]

/-! ### Varint encode/decode lemmas -/

theorem varintLoop_coe (m fuel : Nat) :
    varintLoop (m : Int) (fuel + 1) =
      ((m % 128) ||| (if 0 < m / 128 then 128 else 0)) ::
        (if m / 128 = 0 then [] else varintLoop ((m / 128 : Nat) : Int) fuel) := by
  have hmod : ((m : Int) % 128).toNat = m % 128 := by omega
  have hfdiv : (m : Int).fdiv 128 = ((m / 128 : Nat) : Int) := (Int.ofNat_fdiv m 128).symm
  conv_lhs => rw [varintLoop]
  simp only [hmod, hfdiv, Nat.cast_eq_zero, Nat.cast_pos]
  by_cases hq : m / 128 = 0
  · simp [hq]
  · simp [hq, Nat.pos_of_ne_zero hq]

theorem varintLoop_length_le (fuel : Nat) :
    ∀ m : Nat, (varintLoop (m : Int) fuel).length ≤ fuel := by
  induction fuel with
  | zero => intro m; simp [varintLoop]
  | succ f ih =>
      intro m
      rw [varintLoop_coe]
      by_cases hq : m / 128 = 0
      · simp [hq]
      · simp only [hq, if_false, List.length_cons]
        have := ih (m / 128)
        omega

theorem uvLoop_varint (fuel : Nat) :
    ∀ (m : Nat) (pre rest : List Nat) (acc i : Nat),
      m < 128 ^ fuel →
      Buffer.uvLoop ⟨pre ++ varintLoop (m : Int) fuel ++ rest, (pre.length : Int)⟩ acc i fuel =
        (.ok (acc ||| (m <<< (7 * i))),
         ⟨pre ++ varintLoop (m : Int) fuel ++ rest,
          (pre.length : Int) + ((varintLoop (m : Int) fuel).length : Int)⟩) := by
  induction fuel with
  | zero =>
      intro m pre rest acc i hm
      have hm0 : m = 0 := by simpa using hm
      subst hm0
      simp [varintLoop, Buffer.uvLoop, Nat.zero_shiftLeft]
  | succ f ih =>
      intro m pre rest acc i hm
      have hb7 : m % 128 < 128 := Nat.mod_lt m (by norm_num)
      rw [varintLoop_coe]
      by_cases hq : m / 128 = 0
      · -- last byte: no continuation flag
        have hmsmall : m < 128 := by
          have := Nat.div_add_mod m 128
          omega
        have hbyte : (m % 128) ||| (if 0 < m / 128 then 128 else 0) = m := by
          simp [hq, Nat.mod_eq_of_lt hmsmall]
        have htail : (if m / 128 = 0 then ([] : List Nat)
            else varintLoop ((m / 128 : Nat) : Int) f) = [] := by simp [hq]
        rw [hbyte, htail]
        have hcons : pre ++ ([m] : List Nat) ++ rest = pre ++ m :: rest := by simp
        rw [hcons]
        show Buffer.uvLoop _ acc i (f + 1) = _
        unfold Buffer.uvLoop
        rw [unpackU8_at]
        have h127 : m &&& 127 = m := (byteFacts m hmsmall).2.2.1
        have h128 : m &&& 128 = 0 := (byteFacts m hmsmall).2.2.2
        simp [h127, h128]
      · -- continuation flag set, recurse
        have hqpos : 0 < m / 128 := Nat.pos_of_ne_zero hq
        have hbyte : (m % 128) ||| (if 0 < m / 128 then 128 else 0) = (m % 128) ||| 128 := by
          simp [hqpos]
        have htail : (if m / 128 = 0 then ([] : List Nat)
            else varintLoop ((m / 128 : Nat) : Int) f) = varintLoop ((m / 128 : Nat) : Int) f := by
          simp [hq]
        rw [hbyte, htail]
        have hcons : pre ++ (((m % 128) ||| 128) :: varintLoop ((m / 128 : Nat) : Int) f) ++ rest
            = pre ++ ((m % 128) ||| 128) :: (varintLoop ((m / 128 : Nat) : Int) f ++ rest) := by
          simp
        rw [hcons]
        unfold Buffer.uvLoop
        rw [unpackU8_at]
        have h127 : ((m % 128) ||| 128) &&& 127 = m % 128 := (byteFacts (m % 128) hb7).1
        have h128 : ((m % 128) ||| 128) &&& 128 = 128 := (byteFacts (m % 128) hb7).2.1
        simp only [h127, h128]
        have hne : ¬ ((128 : Nat) = 0) := by norm_num
        simp only [hne, if_false]
        have hql : m / 128 < 128 ^ f := by
          rw [Nat.div_lt_iff_lt_mul (show 0 < 128 by norm_num), ← pow_succ]
          exact hm
        have hlist : pre ++ ((m % 128) ||| 128) :: (varintLoop ((m / 128 : Nat) : Int) f ++ rest)
            = (pre ++ [(m % 128) ||| 128]) ++ varintLoop ((m / 128 : Nat) : Int) f ++ rest := by
          simp
        have hpos : (pre.length : Int) + 1 = (((pre ++ [(m % 128) ||| 128]).length : Nat) : Int) := by
          simp
        rw [hlist, hpos, ih (m / 128) (pre ++ [(m % 128) ||| 128]) rest _ (i + 1) hql]
        have hval : acc ||| (m % 128) <<< (7 * i) ||| (m / 128) <<< (7 * (i + 1))
            = acc ||| m <<< (7 * i) := by
          rw [Nat.lor_assoc]
          congr 1
          have hr := shiftLeft_lor_recombine m (7 * i)
          have harith : 7 * i + 7 = 7 * (i + 1) := by ring
          rw [harith] at hr
          exact hr
        simp only [Prod.mk.injEq, Buffer.mk.injEq, Except.ok.injEq]
        refine ⟨?_, ?_, ?_⟩
        · exact hval
        · simp
        · simp only [List.length_append, List.length_cons, List.length_nil]
          push_cast
          ring

theorem pack_varint_ok (v : Int) (bits : Nat)
    (h1 : -(2 ^ (bits - 1) : Int) ≤ v) (h2 : v < (2 ^ (bits - 1) : Int)) :
    pack_varint v bits = .ok (varintLoop (if v < 0 then v + 2 ^ 32 else v) 10) := by
  unfold pack_varint
  simp [h1, h2]

theorem varint_wrap (v : Int) (hlo : -(2 ^ 31) ≤ v) (hhi : v < 2 ^ 31) :
    ∃ m : Nat, (if v < 0 then v + 2 ^ 32 else v) = (m : Int) ∧ m < 2 ^ 32 ∧
      (if 2 ^ 31 ≤ m then (m : Int) - 2 ^ 32 else (m : Int)) = v := by
  by_cases hv : v < 0
  · refine ⟨(v + 2 ^ 32).toNat, ?_, ?_, ?_⟩
    · simp only [hv, if_true]
      omega
    · omega
    · have hge : 2 ^ 31 ≤ (v + 2 ^ 32).toNat := by omega
      simp only [hge, if_true]
      omega
  · refine ⟨v.toNat, ?_, ?_, ?_⟩
    · simp only [hv, if_false]
      omega
    · omega
    · have hge : ¬ (2 ^ 31 ≤ v.toNat) := by omega
      simp only [hge, if_false]
      omega

theorem unpack_varint_at (m : Nat) (hm : m < 2 ^ 32) (pre rest : List Nat) (bits : Nat) :
    Buffer.unpack_varint ⟨pre ++ varintLoop (m : Int) 10 ++ rest, (pre.length : Int)⟩ bits =
      (if -(2 ^ (bits - 1) : Int) ≤ (if 2 ^ 31 ≤ m then (m : Int) - 2 ^ 32 else (m : Int)) ∧
          (if 2 ^ 31 ≤ m then (m : Int) - 2 ^ 32 else (m : Int)) < (2 ^ (bits - 1) : Int)
       then (.ok (if 2 ^ 31 ≤ m then (m : Int) - 2 ^ 32 else (m : Int)),
             ⟨pre ++ varintLoop (m : Int) 10 ++ rest,
              (pre.length : Int) + ((varintLoop (m : Int) 10).length : Int)⟩)
       else (.error .valueError,
             ⟨pre ++ varintLoop (m : Int) 10 ++ rest,
              (pre.length : Int) + ((varintLoop (m : Int) 10).length : Int)⟩)) := by
  have hm10 : m < 128 ^ 10 := by
    have h : (2 : Nat) ^ 32 ≤ 128 ^ 10 := by norm_num
    omega
  unfold Buffer.unpack_varint
  rw [uvLoop_varint 10 m pre rest 0 0 hm10]
  have hz : (0 : Nat) ||| (m <<< (7 * 0)) = m := by
    simp [Nat.shiftLeft_zero]
  have hsgn : ((m &&& (1 <<< 31) ≠ 0) ↔ 2 ^ 31 ≤ m) := and_pow_ne_iff 31 m hm
  have hcc : (m &&& (1 <<< 31) ≠ 0) = (2 ^ 31 ≤ m) := propext hsgn
  simp only [hz, hcc]

/-- The decode loop consumes at most `fuel` bytes, never rewinds, and does not
change the underlying byte string. -/
theorem uvLoop_advance (fuel : Nat) :
    ∀ (b : Buffer) (acc i : Nat),
      (b.uvLoop acc i fuel).2.buff = b.buff ∧
      b.pos ≤ (b.uvLoop acc i fuel).2.pos ∧
      (b.uvLoop acc i fuel).2.pos ≤ b.pos + fuel := by
  induction fuel with
  | zero =>
      intro b acc i
      simp [Buffer.uvLoop]
  | succ f ih =>
      intro b acc i
      have hU : b.unpackU8 = (b.unpackU8.1, b.unpackU8.2) := rfl
      have hbuff : b.unpackU8.2.buff = b.buff ∧
          b.pos ≤ b.unpackU8.2.pos ∧ b.unpackU8.2.pos ≤ b.pos + 1 := by
        unfold Buffer.unpackU8 Buffer.unpackBytes Buffer.read
        by_cases hc : b.pos + (1 : Int) > (b.buff.length : Int)
        · simp [hc]
        · by_cases hl : (pySlice b.buff b.pos (b.pos + 1)).length = 1 <;>
            simp [hc, hl]
      unfold Buffer.uvLoop
      rw [hU]
      cases hres : b.unpackU8.1 with
      | error e =>
          dsimp only
          exact ⟨hbuff.1, hbuff.2.1, by have := hbuff.2.2; omega⟩
      | ok byte =>
          dsimp only
          by_cases hflag : byte &&& 128 = 0
          · simp only [hflag, if_true]
            exact ⟨hbuff.1, hbuff.2.1, by have := hbuff.2.2; omega⟩
          · simp only [hflag, if_false]
            have hrec := ih b.unpackU8.2 (acc ||| ((byte &&& 127) <<< (7 * i))) (i + 1)
            refine ⟨?_, ?_, ?_⟩
            · rw [hrec.1, hbuff.1]
            · have := hrec.2.1
              have := hbuff.2.1
              omega
            · have := hrec.2.2
              have := hbuff.2.2
              omega

/-! ### Claim theorems -/

/-- C4: for every cursor state and every non-negative length strictly greater
than the number of remaining bytes, `read(length)` raises `BufferUnderrun` and
leaves both the byte sequence and the position exactly as they were. -/
theorem read_underrun_unchanged (b : Buffer) (l : Int)
    (hl : 0 ≤ l) (hgt : (b.buff.length : Int) - b.pos < l) :
    b.read (some l) = (.error .underrun, b) := by
  unfold Buffer.read
  have hc : b.pos + l > (b.buff.length : Int) := by omega
  simp [hc]

theorem read_underrun_unchanged_witness :
    Buffer.read ⟨[1, 2], 0⟩ (some 3) = (.error .underrun, ⟨[1, 2], 0⟩) :=
  read_underrun_unchanged ⟨[1, 2], 0⟩ 3 (by decide) (by decide)

/-- The cursor invariant `0 ≤ pos ≤ len(bytes)` of the spec. -/
def BufferInv (b : Buffer) : Prop :=
  0 ≤ b.pos ∧ b.pos ≤ (b.buff.length : Int)

instance (b : Buffer) : Decidable (BufferInv b) := by
  unfold BufferInv
  infer_instance

/-- C9: the invariant `0 ≤ pos ≤ len(bytes)` is preserved by `add`, `read`
(with omitted length or any non-negative length, successful or underrunning),
`save`, `restore` and `discard`. -/
theorem bufferInv_preserved (b : Buffer) (data : List Nat) (l : Int)
    (hb : BufferInv b) (hl : 0 ≤ l) :
    BufferInv (b.add data) ∧ BufferInv (b.read none).2 ∧ BufferInv (b.read (some l)).2 ∧
    BufferInv b.save ∧ BufferInv b.restore ∧ BufferInv b.discard := by
  obtain ⟨h0, h1⟩ := hb
  refine ⟨?_, ?_, ?_, ?_, ?_, ?_⟩
  · unfold Buffer.add BufferInv
    simp only [List.length_append]
    constructor
    · exact h0
    · push_cast
      omega
  · unfold Buffer.read BufferInv
    dsimp only
    omega
  · unfold Buffer.read BufferInv
    by_cases hc : b.pos + l > (b.buff.length : Int)
    · simp only [hc, if_true]
      exact ⟨h0, h1⟩
    · simp only [hc, if_false]
      omega
  · unfold Buffer.save BufferInv
    dsimp only
    omega
  · unfold Buffer.restore BufferInv
    dsimp only
    omega
  · unfold Buffer.discard BufferInv
    dsimp only
    omega

theorem bufferInv_preserved_witness :
    BufferInv (Buffer.add ⟨[1, 2], 1⟩ [5]) ∧ BufferInv ((Buffer.read ⟨[1, 2], 1⟩ none).2) ∧
    BufferInv ((Buffer.read ⟨[1, 2], 1⟩ (some 1)).2) ∧ BufferInv (Buffer.save ⟨[1, 2], 1⟩) ∧
    BufferInv (Buffer.restore ⟨[1, 2], 1⟩) ∧ BufferInv (Buffer.discard ⟨[1, 2], 1⟩) :=
  bufferInv_preserved ⟨[1, 2], 1⟩ [5] 1 (by decide) (by decide)

/-- C10: on the byte sequence `AA FF FF FF FF 0F` with one byte already consumed,
`unpack_string` raises nothing: the length varint decodes to `-1` (which passes
the 16-bit range check, moving the cursor from 1 to 6), `read(-1)` accepts the
negative length, returns an empty slice and moves the cursor backwards to 5, and
the empty string is returned. -/
theorem unpack_string_negative_length :
    Buffer.unpack_varint ⟨[170, 255, 255, 255, 255, 15], 1⟩ 16 =
      (.ok (-1), ⟨[170, 255, 255, 255, 255, 15], 6⟩) ∧
    Buffer.unpack_string ⟨[170, 255, 255, 255, 255, 15], 1⟩ =
      (.ok "", ⟨[170, 255, 255, 255, 255, 15], 5⟩) := by
  decide

/-- C8: `pack_slot` with an absent item produces exactly the two bytes `FF FF`
(big-endian signed-16 `-1`) whatever the other arguments; and `unpack_slot`,
upon reading a leading signed-16 equal to `-1`, returns the empty-slot variant
(`item` is `None`, no `count`, `damage` or `tag` keys) and consumes exactly the
two bytes of that leading short. -/
theorem slot_empty_sentinel :
    (∀ (Item Tag : Type) (encodeItem : Item → Except Err Int) (tagToBytes : Tag → List Nat)
       (count damage : Int) (tag : Option Tag),
       pack_slot encodeItem tagToBytes none count damage tag = .ok [255, 255]) ∧
    (∀ (Item Tag : Type) (decodeItem : Int → Except Err Item)
       (unpackNbt : Buffer → Except Err Tag × Buffer) (pre rest : List Nat),
       Buffer.unpack_slot ⟨pre ++ [255, 255] ++ rest, (pre.length : Int)⟩ decodeItem unpackNbt =
         (.ok ⟨none, none, none, none⟩, ⟨pre ++ [255, 255] ++ rest, (pre.length : Int) + 2⟩)) := by
  constructor
  · intro Item Tag encodeItem tagToBytes count damage tag
    show packH (-1) = _
    decide
  · intro Item Tag decodeItem unpackNbt pre rest
    unfold Buffer.unpack_slot Buffer.unpackH
    have h := unpackBytes_exact pre [255, 255] rest
    have h2 : ([255, 255] : List Nat).length = 2 := rfl
    rw [h2] at h
    rw [h]
    have hbe : beNat [255, 255] = 65535 := by decide
    dsimp only
    rw [hbe]
    norm_num

/-- C7 counterexample: the five bytes `FF FF FF FF 0F` decode (32-bit varint) to
the index `-1`, which is outside `0..5`, yet `unpack_direction` does not fail:
Python's negative tuple indexing returns the last direction, `"east"`. -/
theorem unpack_direction_negative_index :
    Buffer.unpack_direction ⟨[255, 255, 255, 255, 15], 0⟩ =
      (.ok "east", ⟨[255, 255, 255, 255, 15], 5⟩) := by
  decide

/-- C7 (amended): `unpack_direction` fails with `IndexError` only for decoded
indices below `-6` or at least `6`; decoded indices in `-6..-1` wrap around
(Python negative indexing) and return a direction instead of failing. -/
theorem unpack_direction_out_of_range (b b' : Buffer) (i : Int)
    (hdec : b.unpack_varint 32 = (.ok i, b'))
    (hout : i < -6 ∨ 6 ≤ i) :
    b.unpack_direction = (.error .indexError, b') := by
  unfold Buffer.unpack_direction
  rw [hdec]
  dsimp only
  unfold pyGet
  have h6 : ((directions.length : Nat) : Int) = 6 := by norm_num [directions]
  have hcond : ¬ (0 ≤ (if i < 0 then i + (directions.length : Int) else i) ∧
      (if i < 0 then i + (directions.length : Int) else i) < (directions.length : Int)) := by
    rw [h6]
    by_cases hneg : i < 0
    · simp only [hneg, if_true]
      omega
    · simp only [hneg, if_false]
      omega
  simp only [hcond, dite_false]

theorem unpack_direction_out_of_range_witness :
    Buffer.unpack_direction ⟨[6], 0⟩ = (.error .indexError, ⟨[6], 1⟩) :=
  unpack_direction_out_of_range ⟨[6], 0⟩ ⟨[6], 1⟩ 6 (by decide) (by decide)

/-- Whether `unpack_varint` succeeds or raises the range `ValueError`, the
cursor it leaves behind is the one produced by the 10-iteration byte loop. -/
theorem unpack_varint_state (b : Buffer) (bits : Nat) :
    (b.unpack_varint bits).2 = (b.uvLoop 0 0 10).2 := by
  unfold Buffer.unpack_varint
  rcases hU : b.uvLoop 0 0 10 with ⟨res, b2⟩
  cases res with
  | error e => rfl
  | ok number =>
      dsimp only
      split <;> first
        | rfl
        | (split <;> rfl)

/-- C3 counterexample: an input whose first 10 bytes all carry the continuation
bit (ten `0x80` bytes) is not rejected: `unpack_varint` returns the value `0`. -/
theorem unpack_varint_ten_continuation_no_error :
    (Buffer.unpack_varint ⟨[128, 128, 128, 128, 128, 128, 128, 128, 128, 128], 0⟩ 32).1 =
      .ok 0 := by
  decide

/-- C3 (amended): `unpack_varint` consumes at most 10 bytes (and never rewinds
or alters the byte sequence), but exceeding the 10-byte continuation limit is
not detected as an error: ten `0x80` bytes decode successfully to the value `0`
with exactly 10 bytes consumed, the continuation bit of the 10th byte being
ignored. -/
theorem unpack_varint_ten_byte_limit :
    (∀ (b : Buffer) (bits : Nat),
       (b.unpack_varint bits).2.buff = b.buff ∧
       b.pos ≤ (b.unpack_varint bits).2.pos ∧
       (b.unpack_varint bits).2.pos ≤ b.pos + 10) ∧
    Buffer.unpack_varint ⟨[128, 128, 128, 128, 128, 128, 128, 128, 128, 128], 0⟩ 32 =
      (.ok 0, ⟨[128, 128, 128, 128, 128, 128, 128, 128, 128, 128], 10⟩) := by
  constructor
  · intro b bits
    have h := uvLoop_advance 10 b 0 0
    have hs := unpack_varint_state b bits
    rw [hs]
    exact ⟨h.1, h.2.1, by have := h.2.2; omega⟩
  · decide

/-- C1 counterexample: the round-trip fails for the declared bit-width 33.
`2^31` is representable in 33 bits and packs without error, but decoding maps it
through the unconditional 32-bit two's-complement reinterpretation and returns
`-2^31` (which passes the 33-bit range check) instead of `2^31`. -/
theorem varint_roundtrip_width33_fails :
    pack_varint (2 ^ 31) 33 = .ok [128, 128, 128, 128, 8] ∧
    Buffer.unpack_varint ⟨[128, 128, 128, 128, 8], 0⟩ 33 =
      (.ok (-(2 ^ 31)), ⟨[128, 128, 128, 128, 8], 5⟩) ∧
    ((-(2 ^ 31) : Int) ≠ 2 ^ 31) := by
  decide

/-- C1 (amended): for every declared bit-width `bits` with `1 ≤ bits ≤ 32` and
every `v` with `-2^(bits-1) ≤ v < 2^(bits-1)`, decoding the bytes produced by
`pack_varint(v, bits)` with `unpack_varint(bits)` returns exactly `v`. -/
theorem varint_roundtrip (v : Int) (bits : Nat) (h1 : 1 ≤ bits) (h32 : bits ≤ 32)
    (hlo : -(2 ^ (bits - 1) : Int) ≤ v) (hhi : v < (2 ^ (bits - 1) : Int)) :
    ∃ bs : List Nat, pack_varint v bits = .ok bs ∧
      Buffer.unpack_varint ⟨bs, 0⟩ bits = (.ok v, ⟨bs, (bs.length : Int)⟩) := by
  have hpow : (2 : Int) ^ (bits - 1) ≤ 2 ^ 31 := by
    apply pow_le_pow_right₀ (by norm_num)
    omega
  have hlo32 : -(2 ^ 31 : Int) ≤ v := le_trans (neg_le_neg hpow) hlo
  have hhi32 : v < (2 ^ 31 : Int) := lt_of_lt_of_le hhi hpow
  obtain ⟨m, hwrap, hm32, hsgn⟩ := varint_wrap v hlo32 hhi32
  have hpack := pack_varint_ok v bits hlo hhi
  rw [hwrap] at hpack
  refine ⟨varintLoop (m : Int) 10, hpack, ?_⟩
  have hdec := unpack_varint_at m hm32 [] [] bits
  simp only [List.nil_append, List.append_nil, List.length_nil, Nat.cast_zero] at hdec
  rw [hsgn] at hdec
  rw [hdec]
  simp [hlo, hhi]

theorem varint_roundtrip_witness :
    ∃ bs : List Nat, pack_varint (-1) 16 = .ok bs ∧
      Buffer.unpack_varint ⟨bs, 0⟩ 16 = (.ok (-1), ⟨bs, (bs.length : Int)⟩) :=
  varint_roundtrip (-1) 16 (by decide) (by decide) (by decide) (by decide)

/-- C2: the three range guards of the varint codec. (1) `pack_varint` raises
`ValueError` for every value outside `[-2^(bits-1), 2^(bits-1))`. (2) whenever
the byte loop succeeds and the reconstructed 32-bit two's-complement value falls
outside `[-2^(bits-1), 2^(bits-1))`, `unpack_varint` raises `ValueError`.
(3) concretely, a value that is 32-bit-representable but not `bits`-representable
packs fine at width 32 and is rejected when decoded at the narrower width. -/
theorem varint_range_errors :
    (∀ (v : Int) (bits : Nat), 1 ≤ bits →
       (v < -(2 ^ (bits - 1) : Int) ∨ (2 ^ (bits - 1) : Int) ≤ v) →
       pack_varint v bits = .error .valueError) ∧
    (∀ (b b2 : Buffer) (bits n : Nat), 1 ≤ bits →
       b.uvLoop 0 0 10 = (.ok n, b2) →
       ((if n &&& (1 <<< 31) ≠ 0 then (n : Int) - 2 ^ 32 else (n : Int)) < -(2 ^ (bits - 1) : Int) ∨
        (2 ^ (bits - 1) : Int) ≤ (if n &&& (1 <<< 31) ≠ 0 then (n : Int) - 2 ^ 32 else (n : Int))) →
       b.unpack_varint bits = (.error .valueError, b2)) ∧
    (∀ (v : Int) (bits : Nat), 1 ≤ bits →
       -(2 ^ 31) ≤ v → v < 2 ^ 31 →
       (v < -(2 ^ (bits - 1) : Int) ∨ (2 ^ (bits - 1) : Int) ≤ v) →
       ∃ bs : List Nat, pack_varint v 32 = .ok bs ∧
         (Buffer.unpack_varint ⟨bs, 0⟩ bits).1 = .error .valueError) := by
  refine ⟨?_, ?_, ?_⟩
  · intro v bits h1 hout
    unfold pack_varint
    have hc : ¬ (-(2 ^ (bits - 1) : Int) ≤ v ∧ v < (2 ^ (bits - 1) : Int)) := by
      rcases hout with h | h
      · intro hc
        omega
      · intro hc
        omega
    simp [hc]
  · intro b b2 bits n h1 hU hout
    unfold Buffer.unpack_varint
    rw [hU]
    dsimp only
    have hc : ¬ (-(2 ^ (bits - 1) : Int) ≤
        (if n &&& (1 <<< 31) ≠ 0 then (n : Int) - 2 ^ 32 else (n : Int)) ∧
        (if n &&& (1 <<< 31) ≠ 0 then (n : Int) - 2 ^ 32 else (n : Int)) <
          (2 ^ (bits - 1) : Int)) := by
      rcases hout with h | h
      · intro hc
        omega
      · intro hc
        omega
    simp only [hc, if_false]
  · intro v bits h1 hlo32 hhi32 hout
    obtain ⟨m, hwrap, hm32, hsgn⟩ := varint_wrap v hlo32 hhi32
    have hpack := pack_varint_ok v 32 (by omega) (by omega)
    rw [hwrap] at hpack
    refine ⟨varintLoop (m : Int) 10, hpack, ?_⟩
    have hdec := unpack_varint_at m hm32 [] [] bits
    simp only [List.nil_append, List.append_nil, List.length_nil, Nat.cast_zero] at hdec
    rw [hsgn] at hdec
    rw [hdec]
    have hc : ¬ (-(2 ^ (bits - 1) : Int) ≤ v ∧ v < (2 ^ (bits - 1) : Int)) := by
      rcases hout with h | h
      · intro hc
        omega
      · intro hc
        omega
    simp [hc]

theorem varint_range_errors_witness :
    pack_varint (2 ^ 15) 16 = .error .valueError ∧
    Buffer.unpack_varint ⟨[192, 184, 2], 0⟩ 16 = (.error .valueError, ⟨[192, 184, 2], 3⟩) ∧
    ∃ bs : List Nat, pack_varint 40000 32 = .ok bs ∧
      (Buffer.unpack_varint ⟨bs, 0⟩ 16).1 = .error .valueError :=
  ⟨varint_range_errors.1 (2 ^ 15) 16 (by decide) (by decide),
   varint_range_errors.2.1 ⟨[192, 184, 2], 0⟩ ⟨[192, 184, 2], 3⟩ 16 40000 (by decide) (by decide)
     (by decide),
   varint_range_errors.2.2 40000 16 (by decide) (by decide) (by decide) (by decide)⟩

/-- A `k+1`-bit two's-complement sub-field round-trips through
`pack_twos_comp` / `unpack_twos_comp` for values in `[-2^k, 2^k)`. -/
theorem pack_unpack_twos_comp (k : Nat) (v : Int)
    (h1 : -((2 : Int) ^ k) ≤ v) (h2 : v < (2 : Int) ^ k) :
    ∃ n : Nat, pack_twos_comp (k + 1) v = (n : Int) ∧ n < 2 ^ (k + 1) ∧
      unpack_twos_comp (k + 1) n = v := by
  have hcast : (((2 : Nat) ^ k : Nat) : Int) = (2 : Int) ^ k := by push_cast; ring
  have hcast1 : (((2 : Nat) ^ (k + 1) : Nat) : Int) = (2 : Int) ^ (k + 1) := by push_cast; ring
  have hps : ((2 : Int) ^ (k + 1)) = 2 * (2 : Int) ^ k := by ring
  have hpn : ((2 : Nat) ^ (k + 1)) = 2 * (2 : Nat) ^ k := by ring
  have hk1 : (k + 1) - 1 = k := rfl
  by_cases hv : v < 0
  · refine ⟨(v + (2 : Int) ^ (k + 1)).toNat, ?_, ?_, ?_⟩
    · unfold pack_twos_comp
      rw [if_pos hv]
      omega
    · omega
    · unfold unpack_twos_comp
      have hn : (v + (2 : Int) ^ (k + 1)).toNat < 2 ^ (k + 1) := by omega
      have hb := and_pow_ne_iff k ((v + (2 : Int) ^ (k + 1)).toNat) hn
      rw [hk1, if_pos (hb.mpr (by omega))]
      omega
  · refine ⟨v.toNat, ?_, ?_, ?_⟩
    · unfold pack_twos_comp
      rw [if_neg hv]
      omega
    · omega
    · unfold unpack_twos_comp
      have hn : v.toNat < 2 ^ (k + 1) := by omega
      have hb := and_pow_ne_iff k v.toNat hn
      have hnb : ¬ (v.toNat &&& (1 <<< k) ≠ 0) := fun h => by
        have := hb.mp h
        omega
      rw [hk1, if_neg hnb]
      omega

/-- C5: for `x, z` in `[-2^25, 2^25)` and `y` in `[-2^11, 2^11)`, unpacking the
8-byte big-endian word produced by `pack_position(x, y, z)` with
`unpack_position` returns exactly `(x, y, z)`, each two's-complement sub-field
(`x` in bits 38-63, `y` in bits 26-37, `z` in bits 0-25) being independently
sign-extended. -/
theorem position_roundtrip (x y z : Int)
    (hx1 : -(2 ^ 25 : Int) ≤ x) (hx2 : x < (2 ^ 25 : Int))
    (hy1 : -(2 ^ 11 : Int) ≤ y) (hy2 : y < (2 ^ 11 : Int))
    (hz1 : -(2 ^ 25 : Int) ≤ z) (hz2 : z < (2 ^ 25 : Int)) :
    ∃ bs : List Nat, pack_position x y z = .ok bs ∧
      Buffer.unpack_position ⟨bs, 0⟩ = (.ok (x, y, z), ⟨bs, 8⟩) := by
  obtain ⟨nx, hxeq, hxlt, hxdec⟩ := pack_unpack_twos_comp 25 x hx1 hx2
  obtain ⟨ny, hyeq, hylt, hydec⟩ := pack_unpack_twos_comp 11 y hy1 hy2
  obtain ⟨nz, hzeq, hzlt, hzdec⟩ := pack_unpack_twos_comp 25 z hz1 hz2
  have h26 : (25 + 1 : Nat) = 26 := rfl
  have h12 : (11 + 1 : Nat) = 12 := rfl
  rw [h26] at hxeq hxlt hxdec hzeq hzlt hzdec
  rw [h12] at hyeq hylt hydec
  have hxlt' : nx < 2 ^ 26 := hxlt
  have hylt' : ny < 2 ^ 12 := hylt
  have hzlt' : nz < 2 ^ 26 := hzlt
  set u : Nat := nx * 2 ^ 38 + ny * 2 ^ 26 + nz with hu
  have hu64 : u < 2 ^ 64 := by
    rw [hu]
    omega
  have hsum : pack_twos_comp 26 x * 2 ^ 38 + pack_twos_comp 12 y * 2 ^ 26 + pack_twos_comp 26 z
      = ((u : Nat) : Int) := by
    rw [hxeq, hyeq, hzeq, hu]
    push_cast
    ring
  unfold pack_position
  rw [hsum]
  unfold packQ
  have hcond : (0 : Int) ≤ ((u : Nat) : Int) ∧ ((u : Nat) : Int) < 2 ^ 64 := by
    constructor
    · omega
    · omega
  rw [if_pos hcond]
  have htonat : ((u : Nat) : Int).toNat = u := by omega
  rw [htonat]
  refine ⟨_, rfl, ?_⟩
  -- decode side
  unfold Buffer.unpack_position Buffer.unpackQ
  set B : List Nat := [(u >>> 56) &&& 255, (u >>> 48) &&& 255, (u >>> 40) &&& 255,
    (u >>> 32) &&& 255, (u >>> 24) &&& 255, (u >>> 16) &&& 255, (u >>> 8) &&& 255,
    u &&& 255] with hB
  have hlen : B.length = 8 := by rw [hB]; rfl
  have hread := unpackBytes_exact [] B []
  simp only [List.nil_append, List.append_nil, List.length_nil, Nat.cast_zero, hlen,
    zero_add] at hread
  rw [hread]
  have h255 : ∀ a : Nat, a &&& 255 = a % 256 := by
    intro a
    have h := Nat.and_pow_two_sub_one_eq_mod a 8
    norm_num at h
    exact h
  have hbe : beNat B = u := by
    rw [hB]
    simp only [beNat, List.foldl, Nat.shiftRight_eq_div_pow, h255]
    norm_num
    omega
  dsimp only
  rw [hbe]
  have hx' : u >>> 38 = nx := by
    rw [Nat.shiftRight_eq_div_pow]
    omega
  have hy' : (u >>> 26) &&& 0xFFF = ny := by
    rw [Nat.shiftRight_eq_div_pow]
    have h4095 : ∀ a : Nat, a &&& 4095 = a % 4096 := by
      intro a
      have h := Nat.and_pow_two_sub_one_eq_mod a 12
      norm_num at h
      exact h
    rw [show (0xFFF : Nat) = 4095 from rfl, h4095]
    omega
  have hz' : u &&& 0x3FFFFFF = nz := by
    have h67 : ∀ a : Nat, a &&& 67108863 = a % 67108864 := by
      intro a
      have h := Nat.and_pow_two_sub_one_eq_mod a 26
      norm_num at h
      exact h
    rw [show (0x3FFFFFF : Nat) = 67108863 from rfl, h67]
    omega
  rw [hx', hy', hz', hxdec, hydec, hzdec]
  norm_num

theorem position_roundtrip_witness :
    ∃ bs : List Nat, pack_position 5 (-3) (-100) = .ok bs ∧
      Buffer.unpack_position ⟨bs, 0⟩ = (.ok (5, -3, -100), ⟨bs, 8⟩) :=
  position_roundtrip 5 (-3) (-100) (by decide) (by decide) (by decide) (by decide)
    (by decide) (by decide)

/-! ### Length-varint helper lemmas (non-negative values, width 32) -/

theorem except_bind_ok {A B : Type} (a : A) (f : A → Except Err B) :
    Except.bind (.ok a : Except Err A) f = f a := rfl

theorem except_map_ok {A B : Type} (f : A → B) (a : A) :
    Except.map f (.ok a : Except Err A) = .ok (f a) := rfl

theorem pack_varint_nat (n : Nat) (hn : n < 2 ^ 31) :
    pack_varint (n : Int) 32 = .ok (varintLoop (n : Int) 10) := by
  have h1 : -(2 ^ (32 - 1) : Int) ≤ (n : Int) := by omega
  have h2 : (n : Int) < (2 ^ (32 - 1) : Int) := by omega
  have h := pack_varint_ok (n : Int) 32 h1 h2
  have hif : (if (n : Int) < 0 then (n : Int) + 2 ^ 32 else (n : Int)) = (n : Int) :=
    if_neg (by omega)
  rw [hif] at h
  exact h

theorem unpack_varint_nat (n : Nat) (hn : n < 2 ^ 31) (pre rest : List Nat) :
    Buffer.unpack_varint ⟨pre ++ varintLoop (n : Int) 10 ++ rest, (pre.length : Int)⟩ 32 =
      (.ok (n : Int), ⟨pre ++ varintLoop (n : Int) 10 ++ rest,
        (pre.length : Int) + ((varintLoop (n : Int) 10).length : Int)⟩) := by
  have h := unpack_varint_at n (by omega) pre rest 32
  have hsg : (if 2 ^ 31 ≤ n then ((n : Int) - 2 ^ 32) else (n : Int)) = (n : Int) :=
    if_neg (by omega)
  rw [hsg] at h
  rw [h, if_pos]
  constructor
  · omega
  · omega

theorem unpack_varint_nat0 (n : Nat) (hn : n < 2 ^ 31) (rest : List Nat) :
    Buffer.unpack_varint ⟨varintLoop (n : Int) 10 ++ rest, 0⟩ 32 =
      (.ok (n : Int), ⟨varintLoop (n : Int) 10 ++ rest,
        ((varintLoop (n : Int) 10).length : Int)⟩) := by
  have h := unpack_varint_nat n hn [] rest
  simpa using h

theorem read_exact_to_end (pre mid : List Nat) :
    Buffer.read ⟨pre ++ mid, (pre.length : Int)⟩ (some (mid.length : Int)) =
      (.ok mid, ⟨pre ++ mid, (pre.length : Int) + (mid.length : Int)⟩) := by
  have h := read_exact pre mid []
  simpa using h

theorem remaining_zero (l : List Nat) : Buffer.remaining ⟨l, 0⟩ = l := by
  have h := remaining_at [] l
  simpa using h

theorem remaining_one (b0 : Nat) (tail : List Nat) :
    Buffer.remaining ⟨b0 :: tail, 1⟩ = tail := by
  have h := remaining_at [b0] tail
  simpa using h

theorem unpack_varint_zero (rest : List Nat) :
    Buffer.unpack_varint ⟨0 :: rest, 0⟩ 32 = (.ok 0, ⟨0 :: rest, 1⟩) := by
  have h := unpack_varint_nat0 0 (by norm_num) rest
  have hvl : varintLoop ((0 : Nat) : Int) 10 = [0] := by decide
  rw [hvl] at h
  simpa using h

/-- C6 counterexample: with an (invertible) compressor that, like zlib, maps the
empty body to a non-empty byte string, the frame produced by
`pack_packet([], threshold=0)` takes the compressed branch and emits the marker
varint `0`; decoding reads that marker as "uncompressed body follows" and
returns a cursor whose remaining bytes are the compressor output's tail, not
the original empty body. -/
theorem packet_roundtrip_fails_empty_threshold_zero :
    (∀ d : List Nat, ((0 :: d).drop 1) = d) ∧
    pack_packet (fun l => 0 :: l) [] 0 = .ok [2, 0, 0] ∧
    Buffer.unpack_packet ⟨[2, 0, 0], 0⟩ (fun l => l.drop 1) 0 =
      (.ok ⟨[0, 0], 1⟩, ⟨[2, 0, 0], 3⟩) ∧
    Buffer.remaining ⟨[0, 0], 1⟩ = [0] ∧ ([0] : List Nat) ≠ ([] : List Nat) := by
  refine ⟨fun d => rfl, ?_, ?_, ?_, ?_⟩
  · decide
  · decide
  · decide
  · decide

/-- C6 (amended): for every compressor/decompressor pair satisfying the inverse
contract and every body and threshold whose lengths fit the 32-bit varint
range, decoding the frame produced by `pack_packet(body, T)` with
`unpack_packet` at the same threshold yields a cursor whose remaining bytes
equal `body` — except in the single case `T = 0` with `body` empty, where the
compressed branch is taken but its zero-length marker is read back as the
"uncompressed" marker (the case refuted by the counterexample). -/
theorem packet_roundtrip (cpr dec : List Nat → List Nat)
    (hinv : ∀ d, dec (cpr d) = d) (body : List Nat) (T : Int)
    (hexc : ¬ (T = 0 ∧ body = []))
    (hlen : body.length + 1 < 2 ^ 31) (hclen : (cpr body).length + 10 < 2 ^ 31) :
    ∃ (frame : List Nat) (out : Buffer),
      pack_packet cpr body T = .ok frame ∧
      (Buffer.unpack_packet ⟨frame, 0⟩ dec T).1 = .ok out ∧
      out.remaining = body := by
  have hblen : body.length < 2 ^ 31 := by omega
  by_cases hT : 0 ≤ T
  · by_cases hge : T ≤ (body.length : Int)
    · -- compressed branch
      have hbody0 : body ≠ [] := by
        intro hb
        apply hexc
        subst hb
        simp only [List.length_nil, Nat.cast_zero] at hge
        exact ⟨by omega, rfl⟩
      have hdlen : (varintLoop (body.length : Int) 10 ++ cpr body).length < 2 ^ 31 := by
        have h10 := varintLoop_length_le 10 body.length
        simp only [List.length_append]
        omega
      have hpack : pack_packet cpr body T =
          .ok (varintLoop (((varintLoop (body.length : Int) 10 ++ cpr body).length : Nat) : Int) 10
            ++ (varintLoop (body.length : Int) 10 ++ cpr body)) := by
        unfold pack_packet packetFrame
        rw [if_pos hT, if_pos hge, pack_varint_nat body.length hblen, except_map_ok,
          except_bind_ok]
        rw [pack_varint_nat _ hdlen, except_map_ok]
      refine ⟨_, ⟨body, 0⟩, hpack, ?_, remaining_zero body⟩
      unfold Buffer.unpack_packet
      rw [unpack_varint_nat0 _ hdlen (varintLoop (body.length : Int) 10 ++ cpr body)]
      dsimp only
      rw [read_exact_to_end]
      dsimp only
      rw [if_pos hT, unpack_varint_nat0 body.length hblen (cpr body)]
      dsimp only
      have hlt : (0 : Int) < (body.length : Int) := by
        have := List.length_pos.mpr hbody0
        omega
      rw [if_pos hlt, read_all]
      dsimp only
      rw [hinv body]
    · -- compression negotiated but body below threshold: marker 0
      have hp0 : pack_varint (0 : Int) 32 = .ok [0] := by decide
      have hdlen : (([0] : List Nat) ++ body).length < 2 ^ 31 := by
        simp only [List.length_append, List.length_cons, List.length_nil]
        omega
      have hpack : pack_packet cpr body T =
          .ok (varintLoop (((([0] : List Nat) ++ body).length : Nat) : Int) 10
            ++ (([0] : List Nat) ++ body)) := by
        unfold pack_packet packetFrame
        rw [if_pos hT, if_neg hge, hp0, except_map_ok, except_bind_ok]
        rw [pack_varint_nat _ hdlen, except_map_ok]
      refine ⟨_, ⟨0 :: body, 1⟩, hpack, ?_, remaining_one 0 body⟩
      unfold Buffer.unpack_packet
      rw [unpack_varint_nat0 _ hdlen ([0] ++ body)]
      dsimp only
      rw [read_exact_to_end]
      dsimp only
      rw [if_pos hT]
      rw [show ([0] : List Nat) ++ body = 0 :: body from rfl, unpack_varint_zero body]
      dsimp only
      rw [if_neg (by omega : ¬ ((0 : Int) < 0))]
  · -- compression disabled
    have hpack : pack_packet cpr body T =
        .ok (varintLoop ((body.length : Nat) : Int) 10 ++ body) := by
      unfold pack_packet packetFrame
      rw [if_neg hT, except_bind_ok]
      rw [pack_varint_nat _ hblen, except_map_ok]
    refine ⟨_, ⟨body, 0⟩, hpack, ?_, remaining_zero body⟩
    unfold Buffer.unpack_packet
    rw [unpack_varint_nat0 _ hblen body]
    dsimp only
    rw [read_exact_to_end]
    dsimp only
    rw [if_neg hT]

theorem packet_roundtrip_witness :
    ∃ (frame : List Nat) (out : Buffer),
      pack_packet (fun l => l) [7, 8] 0 = .ok frame ∧
      (Buffer.unpack_packet ⟨frame, 0⟩ (fun l => l) 0).1 = .ok out ∧
      out.remaining = [7, 8] :=
  packet_roundtrip (fun l => l) (fun l => l) (fun d => rfl) [7, 8] 0 (by decide) (by decide)
    (by decide)

end MegaCities
